import Mathlib

/-!
Verification development for the sandboxed file-access layer and the
tag-based directive parser of the OpenDevin fork.

The Python source is shallowly embedded: strings are `List Char`,
Python integers are `Int`, Python slicing (with its negative-index and
clamping semantics) is modelled by `pySliceL`, and fallible operations
return `Except` values.  Each definition mirrors one function of
`opendevin/runtime/server/files.py` or
`agenthub/vantage_point_agent/action_parser.py`.
-/

/-- Python slice endpoint conversion: a negative index counts from the end,
a nonnegative one is clamped to the length (`Int.toNat` clamps below at 0). -/
def pyIdx (n i : Int) : Nat :=
  if i < 0 then (n + i).toNat else (min i n).toNat

/-- Python list slicing `l[a:b]` for integer endpoints. -/
def pySliceL (l : List α) (a b : Int) : List α :=
  (l.take (pyIdx (l.length : Int) b)).drop (pyIdx (l.length : Int) a)

/-- Python `str.split('\n')`: always returns one more piece than there are
newline characters; the empty string yields `[""]`. -/
def splitNlL : List Char → List (List Char)
  | [] => [[]]
  | c :: cs =>
    if c = '\n' then [] :: splitNlL cs
    else
      match splitNlL cs with
      | [] => [[c]]
      | l :: ls => (c :: l) :: ls

/-- Python `file.readlines()` on a decoded text: splits after each newline,
keeping the newline on each line; a final piece without a newline is kept,
and the empty text yields no lines. -/
def pyReadlinesL : List Char → List (List Char)
  | [] => []
  | c :: cs =>
    if c = '\n' then ['\n'] :: pyReadlinesL cs
    else
      match pyReadlinesL cs with
      | [] => [[c]]
      | l :: ls => (c :: l) :: ls

/-- Concatenation of a list of lines, as Python `''.join` / `writelines`. -/
def joinL (ls : List (List Char)) : List Char := ls.flatten

/-- The two `start` reassignments of `read_lines`:
`start = max(start, 0); start = min(start, len(all_lines))`. -/
def pyStart (n start : Int) : Int := min (max start 0) n

/-- The two `end` reassignments of `read_lines`:
`end = -1 if end == -1 else max(end, 0); end = min(end, len(all_lines))`
(the second line preserves the `-1` sentinel since `-1 <= len`). -/
def pyEnd (n e : Int) : Int := min (if e = -1 then -1 else max e 0) n

/-- The window lower bound of the bounded branch of `read_lines`:
`begin = max(0, min(start, num_lines - 2))`. -/
def pyBegin (n start1 : Int) : Int := max 0 (min start1 (n - 2))

/-- Embedding of `read_lines` from `opendevin/runtime/server/files.py`:
clamps `start` to `[0, len]`, preserves the `-1` sentinel in `end`, and in
the bounded branch recomputes the window as
`[max 0 (min start (len-2)), max (begin+1) end)`. -/
def read_lines (all_lines : List (List Char)) (start : Int := 0) (e : Int := -1) :
    List (List Char) :=
  let n : Int := all_lines.length
  if pyEnd n e = -1 then
    if pyStart n start = 0 then all_lines
    else pySliceL all_lines (pyStart n start) n
  else
    let begin1 := pyBegin n (pyStart n start)
    let e2 := if pyEnd n e > n then -1 else max (begin1 + 1) (pyEnd n e)
    pySliceL all_lines begin1 e2

/-- Embedding of `insert_lines` from `opendevin/runtime/server/files.py`:
prefix is `['']` when `start == 0` and `original[:start]` otherwise, each
inserted line gains a trailing newline, and the suffix is `['']` when
`end == -1` and `original[end:]` otherwise.  No clamping is performed. -/
def insert_lines (to_insert original : List (List Char)) (start : Int := 0)
    (e : Int := -1) : List (List Char) :=
  (if start = 0 then [([] : List Char)] else pySliceL original 0 start)
    ++ to_insert.map (fun i => i ++ ['\n'])
    ++ (if e = -1 then [([] : List Char)] else pySliceL original e original.length)

/-- Content-level embedding of `write_file` from
`opendevin/runtime/server/files.py`: `existing = none` is the `mode = 'w'`
path (the file did not exist), `existing = some old` is the `r+` path that
reads the current lines and splices via `insert_lines`; the result is the
text written back (`writelines` then `truncate`). -/
def write_file (existing : Option (List Char)) (content : List Char)
    (start : Int := 0) (e : Int := -1) : List Char :=
  let insert := splitNlL content
  match existing with
  | none => joinL (insert.map (fun i => i ++ ['\n']))
  | some old => joinL (insert_lines insert (pyReadlinesL old) start e)

/-- Content-level embedding of `read_file` from
`opendevin/runtime/server/files.py` applied to an existing decoded file:
`readlines`, `read_lines`, then `''.join`. -/
def read_file (stored : List Char) (start : Int := 0) (e : Int := -1) :
    List Char :=
  joinL (read_lines (pyReadlinesL stored) start e)

/-- Boolean prefix test on character lists (Python substring machinery). -/
def isPre : List Char → List Char → Bool
  | [], _ => true
  | _ :: _, [] => false
  | a :: as, b :: bs => a = b && isPre as bs

/-- Leftmost occurrence search: splits `s` as `pre ++ pat ++ post` around the
first occurrence of `pat` and returns `(pre, post)`, or `none`. -/
def splitFirstL (pat : List Char) : List Char → Option (List Char × List Char)
  | [] => if pat = [] then some ([], []) else none
  | c :: cs =>
    if isPre pat (c :: cs) then some ([], (c :: cs).drop pat.length)
    else
      match splitFirstL pat cs with
      | some (a, b) => some (c :: a, b)
      | none => none

/-- Python `pat in s` substring containment. -/
def containsL (pat s : List Char) : Bool := (splitFirstL pat s).isSome

/-- Substring containment on `String`s. -/
def containsS (pat s : String) : Bool := containsL pat.toList s.toList

/-- Python `str.endswith` on `String`s. -/
def sEndsWith (s suffix : String) : Bool := List.isSuffixOf suffix.toList s.toList

/-- A Python `pathlib.Path` value, abstracted to an absolute-flag and a list
of name segments. -/
structure PyPath where
  absolute : Bool
  segs : List String
deriving DecidableEq

/-- The two configured root constants of `opendevin.core.config` plus the
user's home directory (for `expanduser`).  `workspace_mount_path_in_sandbox`
is the absolute sandbox-visible workspace root, as segments;
`workspace_base` is the host-side mount root, still unexpanded. -/
structure SandboxConfig where
  workspace_mount_path_in_sandbox : List String
  workspace_base : PyPath
  home : List String

/-- Python `Path.expanduser`: a leading `~` segment of a relative path is
replaced by the home directory, making the path absolute. -/
def expanduser (home : List String) (p : PyPath) : PyPath :=
  if !p.absolute && p.segs.headD "" = "~" then ⟨true, home ++ p.segs.tail⟩ else p

/-- The absolute path handed to the OS canonicalizer by `resolve_path`:
`expanduser`, then joining a relative path onto the working directory. -/
def joined_path (cfg : SandboxConfig) (file_path : PyPath)
    (working_directory : List String) : List String :=
  let p := expanduser cfg.home file_path
  if p.absolute then p.segs else working_directory ++ p.segs

/-- Embedding of `resolve_path` from `opendevin/runtime/server/files.py`.
`fr` is the OS canonicalization `Path.resolve` (resolving `.`, `..` and
symlinks); the theorems quantify over it, so they hold for every symlink
configuration.  `is_relative_to` is segmentwise prefix, `relative_to` is
prefix removal, and the `PermissionError` raise is `Except.error`. -/
def resolve_path (cfg : SandboxConfig) (fr : List String → List String)
    (file_path : PyPath) (working_directory : List String) :
    Except Unit (List String) :=
  let abs_path := fr (joined_path cfg file_path working_directory)
  if cfg.workspace_mount_path_in_sandbox.isPrefixOf abs_path then
    Except.ok ((expanduser cfg.home cfg.workspace_base).segs
      ++ abs_path.drop cfg.workspace_mount_path_in_sandbox.length)
  else Except.error ()

/-- Outcome of one Python `open(path, 'r', encoding=enc)` + `read()` attempt:
success, an `OSError`/`IOError`, or a `UnicodeDecodeError`. -/
inductive ReadOutcome where
  | ok (content : String)
  | osError
  | decodeError
deriving DecidableEq

/-- Abstract filesystem for the serializer: `walk` is `os.walk` (each entry a
directory path with its file names, in traversal order) and `readF` is the
per-(file, encoding) read outcome. -/
structure FileSystem where
  walk : List String → List (String × List String)
  readF : String → String → ReadOutcome

/-- The error kinds `load_codebases_xml` can convert into `ErrorObservation`s. -/
inductive LoadErr where
  | permission
  | badDecode
deriving DecidableEq

/-- Observation returned by `load_codebases_xml`: either the
`CodebasesLoadedObservation` content or an `ErrorObservation` kind. -/
inductive Obs where
  | loaded (content : String)
  | errorObs (k : LoadErr)
deriving DecidableEq

/-- The configured encoding fallback list of `load_codebases_xml`. -/
def encodings : List String := ["utf-8", "cp1252", "iso-8859-1"]

/-- The inner per-file encoding loop of `load_codebases_xml`: an `OSError` is
caught and the next encoding is tried; exhausting the list leaves the file
unloaded (`none`); a `UnicodeDecodeError` is NOT caught by the inner
`except (OSError, IOError)` handler and propagates as an exception. -/
def tryEncodings (fs : FileSystem) (fpath : String) :
    List String → Except LoadErr (Option String)
  | [] => Except.ok none
  | enc :: rest =>
    match fs.readF fpath enc with
    | ReadOutcome.ok c => Except.ok (some c)
    | ReadOutcome.osError => tryEncodings fs fpath rest
    | ReadOutcome.decodeError => Except.error LoadErr.badDecode

/-- One `<file>` manifest entry; `rp` is `os.path.relpath(·, working_directory)`. -/
def fileEntryXml (rp : String → String) (abspath content : String) : String :=
  "<file>\n<path>" ++ rp abspath ++ "</path>\n<content>" ++ content
    ++ "</content>\n</file>\n"

/-- The inner file loop of `load_codebases_xml` over one walked directory:
keeps a file iff some extension matches or the extension list is empty, loads
it through the encoding fallback, and appends an entry on success; a file
that stayed unloaded is skipped; a decode error propagates. -/
def loadFiles (fs : FileSystem) (rp : String → String) (exts : List String)
    (root : String) : List String → Except LoadErr String
  | [] => Except.ok ""
  | f :: rest =>
    if exts.any (fun ext => sEndsWith f ("." ++ ext)) || exts.isEmpty then
      match tryEncodings fs (root ++ "/" ++ f) encodings with
      | Except.error k => Except.error k
      | Except.ok r =>
        match loadFiles fs rp exts root rest with
        | Except.error k => Except.error k
        | Except.ok b =>
          Except.ok ((match r with
            | some c => fileEntryXml rp (root ++ "/" ++ f) c
            | none => "") ++ b)
    else loadFiles fs rp exts root rest

/-- The `os.walk` loop of `load_codebases_xml`: directories whose path
contains `__pycache__` contribute no files but the walk continues. -/
def loadWalk (fs : FileSystem) (rp : String → String) (exts : List String) :
    List (String × List String) → Except LoadErr String
  | [] => Except.ok ""
  | (root, files) :: rest =>
    match (if containsS "__pycache__" root then Except.ok ""
           else loadFiles fs rp exts root files) with
    | Except.error k => Except.error k
    | Except.ok a =>
      match loadWalk fs rp exts rest with
      | Except.error k => Except.error k
      | Except.ok b => Except.ok (a ++ b)

/-- Processing of one root location in `load_codebases_xml`: resolve it
(a `PermissionError` aborts the call), then walk it inside the `try` block
that catches `UnicodeDecodeError`. -/
def processLocation (fs : FileSystem) (cfg : SandboxConfig)
    (fr : List String → List String) (rp : String → String)
    (wd : List String) (exts : List String) (loc : PyPath) :
    Except LoadErr String :=
  match resolve_path cfg fr loc wd with
  | Except.error _ => Except.error LoadErr.permission
  | Except.ok whole =>
    match loadWalk fs rp exts (fs.walk whole) with
    | Except.error k => Except.error k
    | Except.ok body =>
      Except.ok ("<codebase_subfolder>\n" ++ body ++ "</codebase_subfolder>\n")

/-- The outer location loop of `load_codebases_xml`. -/
def loadLoop (fs : FileSystem) (cfg : SandboxConfig)
    (fr : List String → List String) (rp : String → String)
    (wd : List String) (exts : List String) :
    List PyPath → Except LoadErr String
  | [] => Except.ok ""
  | loc :: rest =>
    match processLocation fs cfg fr rp wd exts loc with
    | Except.error k => Except.error k
    | Except.ok a =>
      match loadLoop fs cfg fr rp wd exts rest with
      | Except.error k => Except.error k
      | Except.ok b => Except.ok (a ++ b)

/-- Embedding of `load_codebases_xml` from
`opendevin/runtime/server/files.py`: per-location resolution and walking,
early-returning an `ErrorObservation` on a `PermissionError` or an escaped
`UnicodeDecodeError`, otherwise wrapping the manifest in `<codebase>` tags. -/
def load_codebases_xml (fs : FileSystem) (cfg : SandboxConfig)
    (fr : List String → List String) (rp : String → String)
    (codebase_locations : List PyPath) (working_directory : List String)
    (extensions : List String) : Obs :=
  match loadLoop fs cfg fr rp working_directory extensions codebase_locations with
  | Except.error k => Obs.errorObs k
  | Except.ok xml => Obs.loaded ("<codebase>\n" ++ xml ++ "</codebase>\n")

/-- Fuel-driven core of Python `str.replace`: each step either copies one
character or replaces one leftmost occurrence, consuming at least one input
character, so `s.length` fuel always suffices. -/
def replaceAllAux (pat repl : List Char) : Nat → List Char → List Char
  | 0, s => s
  | _ + 1, [] => []
  | fuel + 1, c :: cs =>
    if pat ≠ [] ∧ isPre pat (c :: cs) then
      repl ++ replaceAllAux pat repl fuel ((c :: cs).drop pat.length)
    else c :: replaceAllAux pat repl fuel cs

/-- Python `str.replace(pat, repl)`: replaces every non-overlapping leftmost
occurrence (an empty pattern is never replaced, keeping the model total). -/
def replaceAllL (pat repl s : List Char) : List Char :=
  replaceAllAux pat repl s.length s

/-- The characters Python `str.strip()` removes. -/
def isPySpace (c : Char) : Bool :=
  c = ' ' || c = '\t' || c = '\n' || c = '\r'
    || c = Char.ofNat 11 || c = Char.ofNat 12

/-- Python `str.strip()`. -/
def stripL (s : List Char) : List Char :=
  ((s.dropWhile isPySpace).reverse.dropWhile isPySpace).reverse

/-- Rightmost occurrence search, used for greedy `.*` capture. -/
def splitLastL (pat s : List Char) : Option (List Char × List Char) :=
  match splitFirstL pat.reverse s.reverse with
  | some (a, b) => some (b.reverse, a.reverse)
  | none => none

/-- Python `re.search(open + '(.*?)' + close, s, re.DOTALL)`: the match
starts at the first occurrence of the opening tag, and the non-greedy group
ends at the first closing tag after it.  Returns `(group0, group1)`. -/
def searchNonGreedy (openT closeT s : String) : Option (String × String) :=
  match splitFirstL openT.toList s.toList with
  | none => none
  | some (_, rest) =>
    match splitFirstL closeT.toList rest with
    | none => none
    | some (inner, _) =>
      some ((openT.toList ++ inner ++ closeT.toList).asString, inner.asString)

/-- Python `re.search(open + '(.*)' + close, s, re.DOTALL)`: greedy variant,
the group runs to the last closing tag. -/
def searchGreedy (openT closeT s : String) : Option (String × String) :=
  match splitFirstL openT.toList s.toList with
  | none => none
  | some (_, rest) =>
    match splitLastL closeT.toList rest with
    | none => none
    | some (inner, _) =>
      some ((openT.toList ++ inner ++ closeT.toList).asString, inner.asString)

/-- Python `s.replace(pat, repl)` on `String`s. -/
def replaceS (s pat repl : String) : String :=
  (replaceAllL pat.toList repl.toList s.toList).asString

/-- Python `s.strip()` on `String`s. -/
def stripS (s : String) : String := (stripL s.toList).asString

/-- The closed set of actions the VantagePoint response parser can emit,
mirroring `agenthub/vantage_point_agent/action_parser.py`. -/
inductive AgentAction where
  | AgentFinishAction (thought : String)
  | CmdRunAction (command thought : String)
  | IPythonRunCellAction (code thought kernel_init_code : String)
  | AgentDelegateAction (agent task : String)
  | MessageAction (content : String) (wait_for_response : Bool)
deriving DecidableEq

/-- One step of the self-repair loop in
`VantagePointResponseParser.parse_response`: append the closing tag when the
opening tag is present and the closing one is not. -/
def repairTag (lang : String) (action : String) : String :=
  if containsS ("<execute_" ++ lang ++ ">") action
      && !containsS ("</execute_" ++ lang ++ ">") action then
    action ++ "</execute_" ++ lang ++ ">"
  else action

/-- Embedding of `VantagePointResponseParser.parse_response` applied to the
extracted message content: the repair loop over `bash`, `ipython`, `browse`. -/
def parse_response (response : String) : String :=
  ["bash", "ipython", "browse"].foldl (fun acc lang => repairTag lang acc) response

/-- Embedding of `VantagePointResponseParser.parse_action`: the matchers are
tried in the fixed order Finish, CmdRun, IPythonRunCell, AgentDelegate, with
Message as the always-matching fallback.  The finish and delegate patterns
are greedy (`.*`), the bash and ipython patterns non-greedy (`.*?`); the
thought is the text with the whole match removed, stripped. -/
def parse_action (action_str : String) : AgentAction :=
  match searchGreedy "<finish>" "</finish>" action_str with
  | some (g0, _) =>
    AgentAction.AgentFinishAction (stripS (replaceS action_str g0 ""))
  | none =>
    match searchNonGreedy "<execute_bash>" "</execute_bash>" action_str with
    | some (g0, g1) =>
      let thought := stripS (replaceS action_str g0 "")
      let command_group := stripS g1
      if stripS command_group = "exit" then AgentAction.AgentFinishAction ""
      else AgentAction.CmdRunAction command_group thought
    | none =>
      match searchNonGreedy "<execute_ipython>" "</execute_ipython>" action_str with
      | some (g0, g1) =>
        AgentAction.IPythonRunCellAction (stripS g1)
          (stripS (replaceS action_str g0 "")) "from agentskills import *"
      | none =>
        match searchGreedy "<ask_omniscient_chatbot>" "</ask_omniscient_chatbot>"
            action_str with
        | some (g0, g1) =>
          let thought := stripS (replaceS action_str g0 "")
          let question_to_ask := stripS g1
          AgentAction.AgentDelegateAction "OmniscientChatbot"
            (thought ++ ". My question for the Omniscient Chatbot is: "
              ++ question_to_ask)
        | none => AgentAction.MessageAction action_str true

/-- Embedding of `VantagePointResponseParser.parse`: self-repair, then the
ordered matchers. -/
def parse (response : String) : AgentAction := parse_action (parse_response response)

/-- A concrete ten-line file used by witnesses and counterexamples. -/
def demoLines : List (List Char) :=
  [['0'], ['1'], ['2'], ['3'], ['4'], ['5'], ['6'], ['7'], ['8'], ['9']]

/-- A concrete sandbox configuration: workspace root `/ws`, host mount
`/host/mnt`, home `/home/u`. -/
def cfgDemo : SandboxConfig :=
  ⟨["ws"], ⟨true, ["host", "mnt"]⟩, ["home", "u"]⟩

/-- The identity canonicalizer: a filesystem with no symlinks and already
canonical inputs. -/
def frId : List String → List String := fun l => l

/-- The identity relative-path map, standing for `os.path.relpath`. -/
def rpId : String → String := fun s => s

/-- A filesystem with no walkable entries and only failing reads. -/
def fsEmpty : FileSystem := ⟨fun _ => [], fun _ _ => ReadOutcome.osError⟩

/-- A filesystem where `bad.py` raises `UnicodeDecodeError` under utf-8 but
would decode under any fallback encoding, while `good.py` reads fine. -/
def fsBadDecode : FileSystem :=
  ⟨fun _ => [("ws/proj", ["good.py", "bad.py"])],
   fun f enc =>
     if f = "ws/proj/bad.py" then
       (if enc = "utf-8" then ReadOutcome.decodeError else ReadOutcome.ok "recovered")
     else ReadOutcome.ok "print(1)"⟩

/-- A filesystem where `bad.py` raises `OSError` under every encoding (the
only failure kind the inner handler catches), while `good.py` reads fine. -/
def fsSoftSkip : FileSystem :=
  ⟨fun _ => [("ws/proj", ["good.py", "bad.py"])],
   fun f _ =>
     if f = "ws/proj/bad.py" then ReadOutcome.osError else ReadOutcome.ok "print(1)"⟩

/-- Modelled from the spec wording of claim C3 only, for comparison with the
source's `insert_lines`: splice into the window `[begin, end')` with
`begin = clamp(start, 0, lineCount-2)` and, unless `end` is the sentinel,
`end' = max(begin+1, end)` clamped to `lineCount`. -/
def spliceWindowSpec (to_insert original : List (List Char)) (start e : Int) :
    List (List Char) :=
  let n : Int := original.length
  let begin1 := max 0 (min start (n - 2))
  let e1 := if e = -1 then n else min (max (begin1 + 1) e) n
  original.take begin1.toNat ++ to_insert.map (fun i => i ++ ['\n'])
    ++ original.drop e1.toNat

example : parse "<finish>done</finish>" = AgentAction.AgentFinishAction "" := by decide
example : parse "<execute_bash>ls -la</execute_bash>" =
    AgentAction.CmdRunAction "ls -la" "" := by decide
example : parse "<execute_bash> exit </execute_bash>" =
    AgentAction.AgentFinishAction "" := by decide
example : parse "hello" = AgentAction.MessageAction "hello" true := by decide

example : read_lines [['a'], ['b'], ['c']] 0 (-1) = [['a'], ['b'], ['c']] := by decide
example : read_lines [['a'], ['b'], ['c']] 1 (-1) = [['b'], ['c']] := by decide
example : splitNlL "a\nb".toList = ["a".toList, "b".toList] := by decide
example : pyReadlinesL "a\nb".toList = ["a\n".toList, "b".toList] := by decide
example : write_file none "x".toList 0 (-1) = "x\n".toList := by decide
example : read_file "x\n".toList 0 (-1) = "x\n".toList := by decide

theorem splitNlL_ne_nil (s : List Char) : splitNlL s ≠ [] := by
  cases s with
  | nil => simp [splitNlL]
  | cons c cs =>
    unfold splitNlL
    by_cases hc : c = '\n'
    · simp [hc]
    · simp only [hc, if_false]
      cases splitNlL cs <;> simp

theorem join_pyReadlinesL (s : List Char) : joinL (pyReadlinesL s) = s := by
  induction s with
  | nil => rfl
  | cons c cs ih =>
    unfold pyReadlinesL
    by_cases hc : c = '\n'
    · simp only [hc, if_true, joinL, List.flatten_cons] at ih ⊢
      simp [ih]
    · simp only [hc, if_false]
      cases hrec : pyReadlinesL cs with
      | nil =>
        have hcs : cs = [] := by
          rw [← ih, hrec]; rfl
        simp [joinL, hcs]
      | cons l ls =>
        have : l ++ joinL ls = cs := by
          rw [← ih, hrec]; simp [joinL]
        simp only [joinL, List.flatten_cons] at this ⊢
        simp [← this]

theorem join_map_splitNl (s : List Char) :
    joinL ((splitNlL s).map (fun i => i ++ ['\n'])) = s ++ ['\n'] := by
  induction s with
  | nil => rfl
  | cons c cs ih =>
    unfold splitNlL
    by_cases hc : c = '\n'
    · simp only [hc, if_true, List.map_cons, joinL, List.flatten_cons] at ih ⊢
      simp [ih]
    · simp only [hc, if_false]
      cases hrec : splitNlL cs with
      | nil => exact absurd hrec (splitNlL_ne_nil cs)
      | cons l ls =>
        rw [hrec] at ih
        simp only [List.map_cons, joinL, List.flatten_cons] at ih ⊢
        simp only [List.cons_append, List.append_assoc] at ih ⊢
        simpa using ih

theorem write_file_full (ex : Option (List Char)) (c : List Char) :
    write_file ex c 0 (-1) = joinL ((splitNlL c).map (fun i => i ++ ['\n'])) := by
  cases ex with
  | none => rfl
  | some old =>
    show joinL (insert_lines (splitNlL c) (pyReadlinesL old) 0 (-1)) = _
    unfold insert_lines
    simp [joinL]

theorem take_min_length (l : List α) (k : Nat) : l.take (min k l.length) = l.take k := by
  rcases le_total k l.length with h | h
  · rw [min_eq_left h]
  · rw [min_eq_right h, List.take_length, List.take_of_length_le h]

theorem drop_min_length (l : List α) (k : Nat) : l.drop (min k l.length) = l.drop k := by
  rcases le_total k l.length with h | h
  · rw [min_eq_left h]
  · rw [min_eq_right h, List.drop_length, (List.drop_eq_nil_iff).mpr h]


theorem pyEnd_neg_one (n : Int) (hn : 0 ≤ n) : pyEnd n (-1) = -1 := by
  unfold pyEnd
  rw [if_pos rfl]
  simp only [min_def]
  split_ifs <;> omega

theorem pyEnd_nonneg (n e : Int) (he : 0 ≤ e) : pyEnd n e = min e n := by
  unfold pyEnd
  rw [if_neg (by omega : ¬ e = -1), max_eq_left he]

theorem pyStart_nonneg (n s : Int) (hs : 0 ≤ s) : pyStart n s = min s n := by
  unfold pyStart
  rw [max_eq_left hs]


theorem read_lines_sentinel (l : List (List Char)) (s : Int) (hs : 0 ≤ s) :
    read_lines l s (-1) = l.drop s.toNat := by
  have hn : (0 : Int) ≤ (l.length : Int) := Int.natCast_nonneg _
  have hend := pyEnd_neg_one (l.length : Int) hn
  have hstart := pyStart_nonneg (l.length : Int) s hs
  simp only [read_lines]
  rw [if_pos hend]
  by_cases h2 : pyStart (l.length : Int) s = 0
  · rw [if_pos h2]
    rw [hstart] at h2
    have hcase : s.toNat = 0 ∨ l.length = 0 := by
      rcases le_total s ((l.length : Int)) with h | h
      · rw [min_eq_left h] at h2; omega
      · rw [min_eq_right h] at h2; omega
    rcases hcase with h | h
    · simp [h]
    · rw [List.eq_nil_of_length_eq_zero h]; simp
  · rw [if_neg h2, hstart]
    unfold pySliceL pyIdx
    have c1 : ¬ ((l.length : Int) < 0) := by omega
    have c2 : ¬ (min s (l.length : Int) < 0) := by
      rcases le_total s ((l.length : Int)) with h | h
      · rw [min_eq_left h]; omega
      · rw [min_eq_right h]; omega
    rw [if_neg c1, if_neg c2]
    have c3 : (min (l.length : Int) (l.length : Int)).toNat = l.length := by
      rw [min_self]; omega
    have c4 : (min (min s (l.length : Int)) (l.length : Int)).toNat
        = min s.toNat l.length := by
      rw [min_assoc, min_self]
      rcases le_total s ((l.length : Int)) with h | h
      · rw [min_eq_left h, min_eq_left (show s.toNat ≤ l.length by omega)]
      · rw [min_eq_right h, min_eq_right (show l.length ≤ s.toNat by omega)]
        omega
    rw [c3, c4, List.take_length, drop_min_length]

theorem read_lines_bounded (l : List (List Char)) (s e : Int) (he : 0 ≤ e) :
    read_lines l s e =
      pySliceL l (pyBegin (l.length : Int) (pyStart (l.length : Int) s))
        (max (pyBegin (l.length : Int) (pyStart (l.length : Int) s) + 1)
          (min e (l.length : Int))) := by
  have hn : (0 : Int) ≤ (l.length : Int) := Int.natCast_nonneg _
  have hend := pyEnd_nonneg (l.length : Int) e he
  have hne : ¬ (pyEnd (l.length : Int) e = -1) := by
    rw [hend]
    rcases le_total e ((l.length : Int)) with h | h
    · rw [min_eq_left h]; omega
    · rw [min_eq_right h]; omega
  have hgt : ¬ (pyEnd (l.length : Int) e > (l.length : Int)) := by
    rw [hend]; exact not_lt.mpr (min_le_right _ _)
  simp only [read_lines]
  rw [if_neg hne, if_neg hgt, hend]

theorem toNat_min_natCast (s : Int) (n : Nat) :
    (min s (n : Int)).toNat = min s.toNat n := by
  rcases le_total s ((n : Int)) with h | h
  · rw [min_eq_left h, min_eq_left (show s.toNat ≤ n by omega)]
  · rw [min_eq_right h, min_eq_right (show n ≤ s.toNat by omega)]
    omega

theorem pySlice_zero_pos (l : List α) (s : Int) (hs : 0 ≤ s) :
    pySliceL l 0 s = l.take s.toNat := by
  unfold pySliceL pyIdx
  rw [if_neg (by omega : ¬ s < 0), if_neg (by omega : ¬ (0 : Int) < 0)]
  have h0 : (min (0 : Int) (l.length : Int)).toNat = 0 := by
    rw [min_eq_left (Int.natCast_nonneg _)]
    rfl
  rw [h0, List.drop_zero, toNat_min_natCast, take_min_length]

theorem pySlice_to_length (l : List α) (e : Int) (he : 0 ≤ e) :
    pySliceL l e (l.length : Int) = l.drop e.toNat := by
  unfold pySliceL pyIdx
  rw [if_neg (by omega : ¬ (l.length : Int) < 0), if_neg (by omega : ¬ e < 0)]
  have h1 : (min (l.length : Int) (l.length : Int)).toNat = l.length := by
    rw [min_self]; omega
  rw [h1, List.take_length, toNat_min_natCast, drop_min_length]

/-- C10: for every list of lines and every pair of integer range arguments,
`read_lines` is a total function (the embedding is a Lean function, so it
always returns) and its result is a contiguous slice `(l.take j).drop i` of
the input, with each returned line unmodified. -/
theorem read_lines_total_slice (l : List (List Char)) (s e : Int) :
    ∃ i j, read_lines l s e = (l.take j).drop i := by
  simp only [read_lines]
  by_cases h1 : pyEnd (l.length : Int) e = -1
  · rw [if_pos h1]
    by_cases h2 : pyStart (l.length : Int) s = 0
    · rw [if_pos h2]
      exact ⟨0, l.length, by simp⟩
    · rw [if_neg h2]
      unfold pySliceL
      exact ⟨_, _, rfl⟩
  · rw [if_neg h1]
    unfold pySliceL
    exact ⟨_, _, rfl⟩

/-- C2 counterexample: on a concrete ten-line file, reading `[5,3]` does
behave like `[5,5]`, but both return the single line at index 5 — not the
empty result the claim asserts. -/
theorem read_lines_empty_cex :
    read_lines demoLines 5 3 = read_lines demoLines 5 5 ∧
    read_lines demoLines 5 3 = [['5']] ∧
    read_lines demoLines 5 3 ≠ [] := by decide

/-- C2 (amended): on a 10-line file, reading `[5,3]` behaves identically to
`[5,5]`, but both return the one-line slice `[5,6)` rather than an empty
result; with the `-1` sentinel, reading from `start ≥ 0` returns the suffix
from `start` (the whole file when `start = 0`); and in the bounded branch the
result is the slice `[begin, max(begin+1, end))` with
`begin = clamp(start, 0, lineCount-2)` and `end` clamped to
`[0, lineCount]`. -/
theorem read_lines_range_clamping :
    (∀ l : List (List Char), l.length = 10 →
      read_lines l 5 3 = read_lines l 5 5 ∧
      read_lines l 5 3 = (l.take 6).drop 5) ∧
    (∀ (l : List (List Char)) (s : Int), 0 ≤ s →
      read_lines l s (-1) = l.drop s.toNat) ∧
    (∀ (l : List (List Char)) (s e : Int), 0 ≤ e →
      read_lines l s e =
        pySliceL l (pyBegin (l.length : Int) (pyStart (l.length : Int) s))
          (max (pyBegin (l.length : Int) (pyStart (l.length : Int) s) + 1)
            (min e (l.length : Int)))) := by
  refine ⟨?_, fun l s hs => read_lines_sentinel l s hs,
    fun l s e he => read_lines_bounded l s e he⟩
  intro l hl
  have hcast : (l.length : Int) = 10 := by exact_mod_cast hl
  constructor
  · rw [read_lines_bounded l 5 3 (by omega), read_lines_bounded l 5 5 (by omega),
      hcast]
    norm_num [pyBegin, pyStart, min_def, max_def]
  · rw [read_lines_bounded l 5 3 (by omega), hcast]
    unfold pySliceL pyIdx pyBegin pyStart
    rw [hcast]
    norm_num [min_def, max_def]
    rfl

/-- C2 witness: the amended clamping behavior evaluated on the concrete
ten-line file. -/
theorem read_lines_range_clamping_w :
    (read_lines demoLines 5 3 = read_lines demoLines 5 5 ∧
      read_lines demoLines 5 3 = (demoLines.take 6).drop 5) ∧
    read_lines demoLines 2 (-1) = demoLines.drop (2 : Int).toNat :=
  ⟨read_lines_range_clamping.1 demoLines (by decide),
    read_lines_range_clamping.2.1 demoLines 2 (by decide)⟩

/-- C3 counterexample: on a concrete ten-line file with `start=5`, `end=3`,
`insert_lines` does not splice into the claimed clamped window
`[begin, end')`: it produces `original[:5] ++ new ++ original[3:]`,
a 13-line result that duplicates lines 3 and 4; and with `start=0`,
`end=lineCount` no line of the original file is preserved. -/
theorem insert_lines_window_cex :
    insert_lines [['x']] demoLines 5 3 ≠ spliceWindowSpec [['x']] demoLines 5 3 ∧
    insert_lines [['x']] demoLines 5 3
      = demoLines.take 5 ++ [['x', '\n']] ++ demoLines.drop 3 ∧
    insert_lines [['x']] demoLines 0 10 = [[], ['x', '\n']] := by decide

/-- C3 (amended): the write splice performs no clamping at all.  For
`start > 0` and `end ≥ 0` the result is
`original[:start] ++ (new lines each + newline) ++ original[end:]` — exactly
the window `[start, end)` when `start ≤ end`, and duplicated lines when
`end < start`; `start = 0` contributes a single empty-string line instead of
the original prefix, and the sentinel `end = -1` contributes a single
empty-string line instead of the original suffix.  No original line is
guaranteed to be preserved. -/
theorem insert_lines_no_clamping :
    (∀ (ins orig : List (List Char)) (s e : Int), 0 < s → 0 ≤ e →
      insert_lines ins orig s e
        = orig.take s.toNat ++ ins.map (fun i => i ++ ['\n'])
          ++ orig.drop e.toNat) ∧
    (∀ (ins orig : List (List Char)) (e : Int), 0 ≤ e →
      insert_lines ins orig 0 e
        = [[]] ++ ins.map (fun i => i ++ ['\n']) ++ orig.drop e.toNat) ∧
    (∀ (ins orig : List (List Char)) (s : Int), 0 < s →
      insert_lines ins orig s (-1)
        = orig.take s.toNat ++ ins.map (fun i => i ++ ['\n']) ++ [[]]) := by
  refine ⟨?_, ?_, ?_⟩
  · intro ins orig s e hs he
    unfold insert_lines
    rw [if_neg (by omega : ¬ s = 0), if_neg (by omega : ¬ e = -1),
      pySlice_zero_pos orig s (by omega), pySlice_to_length orig e he]
  · intro ins orig e he
    unfold insert_lines
    rw [if_pos rfl, if_neg (by omega : ¬ e = -1), pySlice_to_length orig e he]
  · intro ins orig s hs
    unfold insert_lines
    rw [if_neg (by omega : ¬ s = 0), if_pos rfl,
      pySlice_zero_pos orig s (by omega)]

/-- C3 witness: the unclamped splice evaluated at the concrete inverted
window. -/
theorem insert_lines_no_clamping_w :
    insert_lines [['x']] demoLines 5 3
      = demoLines.take (5 : Int).toNat ++ [['x']].map (fun i => i ++ ['\n'])
        ++ demoLines.drop (3 : Int).toNat :=
  insert_lines_no_clamping.1 [['x']] demoLines 5 3 (by decide) (by decide)

/-- C4: writing `content` to a non-existent path and reading back the full
range returns the content split on newlines and re-joined with one trailing
newline per line — that is, `content` plus a final newline. -/
theorem write_then_read_roundtrip (content : List Char) :
    read_file (write_file none content 0 (-1)) 0 (-1)
      = joinL ((splitNlL content).map (fun i => i ++ ['\n'])) ∧
    read_file (write_file none content 0 (-1)) 0 (-1) = content ++ ['\n'] := by
  have hid : ∀ t : List Char, read_file t 0 (-1) = t := by
    intro t
    unfold read_file
    rw [read_lines_sentinel _ 0 le_rfl]
    simpa using join_pyReadlinesL t
  constructor
  · rw [hid]
    rfl
  · rw [hid]
    show joinL ((splitNlL content).map (fun i => i ++ ['\n'])) = content ++ ['\n']
    exact join_map_splitNl content

/-- C5 counterexample: writing `"x\ny"` into window `[1,2)` of `"a\nb\nc\n"`
twice is not idempotent — the second write duplicates the `"y"` line. -/
theorem write_idempotence_cex :
    write_file (some "a\nb\nc\n".toList) "x\ny".toList 1 2 = "a\nx\ny\nc\n".toList ∧
    write_file (some (write_file (some "a\nb\nc\n".toList) "x\ny".toList 1 2))
        "x\ny".toList 1 2 = "a\nx\ny\ny\nc\n".toList ∧
    ("a\nx\ny\ny\nc\n".toList : List Char) ≠ "a\nx\ny\nc\n".toList := by decide

/-- C5 (amended): the write is idempotent for the full sentinel range
`(start=0, end=-1)`: repeating such a write leaves the file unchanged, for
every initial state (missing or existing file); for bounded windows
idempotence fails when the inserted block length differs from the window
length. -/
theorem write_idempotent_full_range (existing : Option (List Char))
    (content : List Char) :
    write_file (some (write_file existing content 0 (-1))) content 0 (-1)
      = write_file existing content 0 (-1) := by
  rw [write_file_full, write_file_full]

/-- C1: for every configuration, canonicalizer (hence every symlink layout),
requested path and working directory: if `resolve_path` succeeds, the
canonicalized path is equal to or a descendant of the workspace root
(segmentwise prefix, i.e. `is_relative_to`), and the returned value is the
workspace-relative remainder re-anchored under the expanded host-side mount
root; if the canonical path is not under the workspace root, resolution
fails with the sandbox-violation error and no partial result is returned. -/
theorem resolve_path_sandbox (cfg : SandboxConfig)
    (fr : List String → List String) (p : PyPath) (w : List String) :
    (∀ r, resolve_path cfg fr p w = Except.ok r →
      cfg.workspace_mount_path_in_sandbox.isPrefixOf
          (fr (joined_path cfg p w)) = true ∧
      r = (expanduser cfg.home cfg.workspace_base).segs
          ++ (fr (joined_path cfg p w)).drop
              cfg.workspace_mount_path_in_sandbox.length) ∧
    (cfg.workspace_mount_path_in_sandbox.isPrefixOf
        (fr (joined_path cfg p w)) = false →
      resolve_path cfg fr p w = Except.error ()) := by
  constructor
  · intro r h
    unfold resolve_path at h
    cases hp : cfg.workspace_mount_path_in_sandbox.isPrefixOf
        (fr (joined_path cfg p w)) with
    | true =>
      rw [if_pos hp] at h
      exact ⟨rfl, (Except.ok.injEq _ _).mp h.symm⟩
    | false =>
      rw [if_neg (by simp [hp])] at h
      cases h
  · intro hf
    unfold resolve_path
    rw [if_neg (by simp [hf])]

/-- C1 witness: a concrete relative path joined onto a working directory
inside the workspace resolves to the host-anchored translation. -/
theorem resolve_path_sandbox_w :
    cfgDemo.workspace_mount_path_in_sandbox.isPrefixOf
        (frId (joined_path cfgDemo ⟨false, ["a"]⟩ ["ws", "dir"])) = true ∧
    ["host", "mnt", "dir", "a"]
      = (expanduser cfgDemo.home cfgDemo.workspace_base).segs
        ++ (frId (joined_path cfgDemo ⟨false, ["a"]⟩ ["ws", "dir"])).drop
            cfgDemo.workspace_mount_path_in_sandbox.length :=
  (resolve_path_sandbox cfgDemo frId ⟨false, ["a"]⟩ ["ws", "dir"]).1
    ["host", "mnt", "dir", "a"] rfl

theorem loadLoop_error_of_resolve (fs : FileSystem) (cfg : SandboxConfig)
    (fr : List String → List String) (rp : String → String)
    (wd : List String) (exts : List String) (locs : List PyPath)
    (h : ∃ loc, loc ∈ locs ∧ resolve_path cfg fr loc wd = Except.error ()) :
    ∃ k, loadLoop fs cfg fr rp wd exts locs = Except.error k := by
  induction locs with
  | nil =>
    obtain ⟨loc, hmem, _⟩ := h
    exact absurd hmem (List.not_mem_nil loc)
  | cons a rest ih =>
    obtain ⟨loc, hmem, hres⟩ := h
    unfold loadLoop
    cases hpl : processLocation fs cfg fr rp wd exts a with
    | error k => exact ⟨k, rfl⟩
    | ok xa =>
      rcases List.mem_cons.mp hmem with rfl | hmem2
      · unfold processLocation at hpl
        rw [hres] at hpl
        cases hpl
      · obtain ⟨k, hk⟩ := ih ⟨loc, hmem2, hres⟩
        exact ⟨k, by rw [hk]⟩

/-- C7: if any root location given to the codebase serializer fails path
resolution with a sandbox violation, the whole call returns an error
observation — no `CodebasesLoadedObservation` carrying manifest entries from
any location is returned. -/
theorem load_codebases_abort_on_violation (fs : FileSystem)
    (cfg : SandboxConfig) (fr : List String → List String)
    (rp : String → String) (locs : List PyPath) (wd : List String)
    (exts : List String)
    (h : ∃ loc, loc ∈ locs ∧ resolve_path cfg fr loc wd = Except.error ()) :
    ∃ k, load_codebases_xml fs cfg fr rp locs wd exts = Obs.errorObs k := by
  obtain ⟨k, hk⟩ := loadLoop_error_of_resolve fs cfg fr rp wd exts locs h
  exact ⟨k, by unfold load_codebases_xml; rw [hk]⟩

/-- C7 witness: with a first location inside the workspace and a second one
outside it, the whole serialization call fails. -/
theorem load_codebases_abort_on_violation_w :
    ∃ k, load_codebases_xml fsEmpty cfgDemo frId rpId
        [⟨false, ["proj"]⟩, ⟨true, ["etc", "passwd"]⟩] ["ws"] []
      = Obs.errorObs k :=
  load_codebases_abort_on_violation fsEmpty cfgDemo frId rpId
    [⟨false, ["proj"]⟩, ⟨true, ["etc", "passwd"]⟩] ["ws"] []
    ⟨⟨true, ["etc", "passwd"]⟩, by decide, rfl⟩

/-- C6: the per-file multi-encoding soft-skip does not happen for decode
failures.  The inner handler catches only `OSError`/`IOError`, so a
`UnicodeDecodeError` raised by the first (utf-8) read escapes to the outer
handler and aborts the whole call — even though the file would decode under
a fallback encoding and another file already decoded fine.  The soft-skip
path is reachable only for `OSError`s, as the second conjunct shows: there
the undecodable file is omitted and the call succeeds with the remaining
file present. -/
theorem load_codebases_decode_abort :
    load_codebases_xml fsBadDecode cfgDemo frId rpId [⟨false, ["proj"]⟩]
        ["ws"] ["py"]
      = Obs.errorObs LoadErr.badDecode ∧
    load_codebases_xml fsSoftSkip cfgDemo frId rpId [⟨false, ["proj"]⟩]
        ["ws"] ["py"]
      = Obs.loaded ("<codebase>\n<codebase_subfolder>\n<file>\n<path>"
          ++ "ws/proj/good.py</path>\n<content>print(1)</content>\n</file>\n"
          ++ "</codebase_subfolder>\n</codebase>\n") := by
  constructor
  · rfl
  · rfl

theorem isPre_refl (p : List Char) : isPre p p = true := by
  induction p with
  | nil => rfl
  | cons a as ih => simp [isPre, ih]

theorem isPre_append (p : List Char) :
    ∀ (s t : List Char), isPre p s = true → isPre p (s ++ t) = true := by
  induction p with
  | nil => intro s t _; rfl
  | cons a as ih =>
    intro s t h
    cases s with
    | nil => simp [isPre] at h
    | cons b bs =>
      simp only [isPre, Bool.and_eq_true, decide_eq_true_eq] at h
      simp only [List.cons_append, isPre, Bool.and_eq_true, decide_eq_true_eq]
      exact ⟨h.1, ih bs t h.2⟩

theorem contains_append (pat : List Char) :
    ∀ (s t : List Char), containsL pat s = true → containsL pat (s ++ t) = true := by
  intro s
  induction s with
  | nil =>
    intro t h
    unfold containsL splitFirstL at h
    by_cases hp : pat = []
    · subst hp
      show containsL [] ([] ++ t) = true
      rw [List.nil_append]
      cases t with
      | nil => rfl
      | cons c cs =>
        unfold containsL splitFirstL
        rw [if_pos (by rfl : isPre [] (c :: cs) = true)]
        rfl
    · rw [if_neg hp] at h
      simp at h
  | cons c cs ih =>
    intro t h
    unfold containsL splitFirstL at h
    show (splitFirstL pat (c :: (cs ++ t))).isSome = true
    unfold splitFirstL
    by_cases hpre : isPre pat (c :: cs) = true
    · rw [if_pos (by simpa using isPre_append pat (c :: cs) t hpre)]
      rfl
    · rw [if_neg hpre] at h
      by_cases hpre2 : isPre pat (c :: (cs ++ t)) = true
      · rw [if_pos hpre2]
        rfl
      · rw [if_neg hpre2]
        cases hsp : splitFirstL pat cs with
        | none => rw [hsp] at h; simp at h
        | some ab =>
          have hcs : containsL pat cs = true := by
            unfold containsL; rw [hsp]; rfl
          have hct := ih t hcs
          unfold containsL at hct
          cases hsp2 : splitFirstL pat (cs ++ t) with
          | none => rw [hsp2] at hct; simp at hct
          | some ab2 => obtain ⟨a1, b1⟩ := ab2; rfl

theorem contains_cons (pat s : List Char) (c : Char)
    (h : containsL pat s = true) : containsL pat (c :: s) = true := by
  unfold containsL splitFirstL
  by_cases hpre : isPre pat (c :: s) = true
  · rw [if_pos hpre]
    rfl
  · rw [if_neg hpre]
    unfold containsL at h
    cases hsp : splitFirstL pat s with
    | none => rw [hsp] at h; simp at h
    | some ab => obtain ⟨a1, b1⟩ := ab; rfl

theorem contains_suffix_self (pat : List Char) :
    ∀ s : List Char, containsL pat (s ++ pat) = true := by
  intro s
  induction s with
  | nil =>
    show containsL pat pat = true
    cases pat with
    | nil => rfl
    | cons c cs =>
      unfold containsL splitFirstL
      rw [if_pos (isPre_refl (c :: cs))]
      rfl
  | cons c cs ih => exact contains_cons pat (cs ++ pat) c ih

theorem containsS_append (pat a b : String) (h : containsS pat a = true) :
    containsS pat (a ++ b) = true := by
  unfold containsS at h ⊢
  have hl : (a ++ b).toList = a.toList ++ b.toList := by
    simp [String.toList, String.data_append]
  rw [hl]
  exact contains_append pat.toList a.toList b.toList h

theorem repairTag_mono (lang pat acc : String) (h : containsS pat acc = true) :
    containsS pat (repairTag lang acc) = true := by
  unfold repairTag
  split_ifs with hc
  · exact containsS_append _ _ _ (containsS_append _ _ _ (containsS_append _ _ _ h))
  · exact h

theorem repairTag_close (lang acc : String)
    (h : containsS ("<execute_" ++ lang ++ ">") acc = true) :
    containsS ("</execute_" ++ lang ++ ">") (repairTag lang acc) = true := by
  unfold repairTag
  by_cases hc : containsS ("</execute_" ++ lang ++ ">") acc = true
  · have hcf : (containsS ("<execute_" ++ lang ++ ">") acc
        && !containsS ("</execute_" ++ lang ++ ">") acc) = false := by
      rw [h, hc]
      rfl
    rw [if_neg (by rw [hcf]; exact Bool.false_ne_true)]
    exact hc
  · have hccf : containsS ("</execute_" ++ lang ++ ">") acc = false := by
      cases hx : containsS ("</execute_" ++ lang ++ ">") acc
      · rfl
      · exact absurd hx hc
    rw [if_pos (by rw [h, hccf]; rfl)]
    unfold containsS
    have hl : (acc ++ "</execute_" ++ lang ++ ">").toList
        = acc.toList ++ ("</execute_" ++ lang ++ ">").toList := by
      simp [String.toList, String.data_append, List.append_assoc]
    rw [hl]
    exact contains_suffix_self _ _

/-- C9: for every input containing both a balanced finish tag pair and a
balanced execute-bash tag pair, `parse_action` returns a Finish token and
never a CommandRun token, because the Finish matcher is tried first in the
fixed priority order. -/
theorem parse_action_priority_finish (s : String)
    (hf : (searchGreedy "<finish>" "</finish>" s).isSome = true)
    (hb : (searchNonGreedy "<execute_bash>" "</execute_bash>" s).isSome = true) :
    ∃ t, parse_action s = AgentAction.AgentFinishAction t ∧
      ∀ cm th, parse_action s ≠ AgentAction.CmdRunAction cm th := by
  unfold parse_action
  cases hsg : searchGreedy "<finish>" "</finish>" s with
  | none => rw [hsg] at hf; simp at hf
  | some g =>
    obtain ⟨g0, g1⟩ := g
    exact ⟨stripS (replaceS s g0 ""), rfl, fun cm th h => by cases h⟩

/-- C9 witness: a text carrying both balanced tag pairs parses to Finish. -/
theorem parse_action_priority_finish_w :
    ∃ t, parse_action "<finish>ok</finish> <execute_bash>ls</execute_bash>"
        = AgentAction.AgentFinishAction t ∧
      ∀ cm th, parse_action "<finish>ok</finish> <execute_bash>ls</execute_bash>"
        ≠ AgentAction.CmdRunAction cm th :=
  parse_action_priority_finish "<finish>ok</finish> <execute_bash>ls</execute_bash>"
    (by decide) (by decide)

/-- C8 counterexample: `<finish>` is a recognized opening tag of the parser,
yet an unclosed `<finish>` gets no synthetic closing tag: the unclosed text
parses to a Message token, unlike its closed form, which parses to Finish —
so not every recognized opening tag is repaired. -/
theorem parse_finish_unrepaired_cex :
    parse "<finish>done" = AgentAction.MessageAction "<finish>done" true ∧
    parse "<finish>done</finish>" = AgentAction.AgentFinishAction "" := by
  constructor <;> rfl

/-- C8 (amended): the self-repair applies exactly to the three
execute-style tags (`execute_bash`, `execute_ipython`, `execute_browse`):
whenever one of these opening tags occurs in the input, its closing tag is
present after `parse_response`, and in particular the unclosed
`<execute_bash>ls -la` is parsed to the same directive token as its closed
form.  The `finish` and delegate tags are not repaired. -/
theorem parse_response_selfrepair :
    (∀ s : String, containsS "<execute_bash>" s = true →
      containsS "</execute_bash>" (parse_response s) = true) ∧
    (∀ s : String, containsS "<execute_ipython>" s = true →
      containsS "</execute_ipython>" (parse_response s) = true) ∧
    (∀ s : String, containsS "<execute_browse>" s = true →
      containsS "</execute_browse>" (parse_response s) = true) ∧
    parse "<execute_bash>ls -la" = parse "<execute_bash>ls -la</execute_bash>" := by
  have eb1 : ("<execute_" ++ "bash" ++ ">" : String) = "<execute_bash>" := by decide
  have eb2 : ("</execute_" ++ "bash" ++ ">" : String) = "</execute_bash>" := by decide
  have ei1 : ("<execute_" ++ "ipython" ++ ">" : String) = "<execute_ipython>" := by
    decide
  have ei2 : ("</execute_" ++ "ipython" ++ ">" : String) = "</execute_ipython>" := by
    decide
  have er1 : ("<execute_" ++ "browse" ++ ">" : String) = "<execute_browse>" := by
    decide
  have er2 : ("</execute_" ++ "browse" ++ ">" : String) = "</execute_browse>" := by
    decide
  have hpr : ∀ s : String, parse_response s
      = repairTag "browse" (repairTag "ipython" (repairTag "bash" s)) := by
    intro s
    rfl
  refine ⟨?_, ?_, ?_, by decide⟩
  · intro s hs
    rw [hpr]
    apply repairTag_mono
    apply repairTag_mono
    have hcl := repairTag_close "bash" s (by rw [eb1]; exact hs)
    rw [eb2] at hcl
    exact hcl
  · intro s hs
    rw [hpr]
    apply repairTag_mono
    have h1 := repairTag_mono "bash" "<execute_ipython>" s hs
    have hcl := repairTag_close "ipython" (repairTag "bash" s) (by rw [ei1]; exact h1)
    rw [ei2] at hcl
    exact hcl
  · intro s hs
    rw [hpr]
    have h1 := repairTag_mono "bash" "<execute_browse>" s hs
    have h2 := repairTag_mono "ipython" "<execute_browse>" _ h1
    have hcl := repairTag_close "browse" _ (by rw [er1]; exact h2)
    rw [er2] at hcl
    exact hcl

/-- C8 witness: the unclosed bash tag gains its closing tag. -/
theorem parse_response_selfrepair_w :
    containsS "</execute_bash>" (parse_response "<execute_bash>ls -la") = true :=
  parse_response_selfrepair.1 "<execute_bash>ls -la" (by decide)
